import Mathlib

namespace AVC

/-!
Verification of the segmented transcript assembly pipeline of the
audio-streaming-examples repository (`process_video_with_captions.py` and
`caption_generator.py`).

Times are embedded as exact rationals (`ℚ`); the Python code computes with
IEEE doubles, but every property checked here concerns values (multiples of
small decimal fractions) on which double arithmetic is exact, so the
rational embedding is faithful on the inputs the theorems touch.
-/

/-- Segment corresponds to the Python transcript-segment dict
`{"text": ..., "start": ..., "end": ..., "type": ...}`.  The `"type"` key is
absent from segments built by `CaptionGenerator`, hence `Option`;
`stop` embeds the `"end"` key (`end` is a Lean keyword). -/
structure Segment where
  text : String
  start : ℚ
  stop : ℚ
  type : Option String
deriving DecidableEq, Repr

/-- Python `sorted(segments, key=lambda x: x["start"])` (a stable sort by the
`"start"` value; `List.insertionSort` with this relation is likewise stable). -/
def sortByStart (segments : List Segment) : List Segment :=
  segments.insertionSort fun a b => a.start ≤ b.start

instance : IsTotal Segment fun a b => a.start ≤ b.start :=
  ⟨fun a b => le_total a.start b.start⟩

instance : IsTrans Segment fun a b => a.start ≤ b.start :=
  ⟨fun _ _ _ h h' => le_trans h h'⟩

instance : IsAntisymm Segment fun a b => a.start < b.start :=
  ⟨fun _ _ h h' => absurd (lt_trans h h') (lt_irrefl _)⟩

/-!
Chunker: `_process_audio_chunks` iterates
`for start_ms in range(0, duration_ms, chunk_size_ms)` with
`end_ms = min(start_ms + chunk_size_ms, duration_ms)`; `duration_ms` and
`chunk_size_ms` are Python ints (milliseconds), embedded as `Nat`.
`range(0, d, c)` has `⌈d / c⌉ = (d + c - 1) / c` elements `0, c, 2c, …`.
-/

/-- Window list of the chunking loop, as `(start_ms, end_ms)` pairs. -/
def chunk_windows (duration_ms chunk_size_ms : Nat) : List (Nat × Nat) :=
  (List.range' 0 ((duration_ms + chunk_size_ms - 1) / chunk_size_ms) chunk_size_ms).map
    fun start_ms => (start_ms, min (start_ms + chunk_size_ms) duration_ms)

/-- Windows starting from offset `s`, the generic shape of `chunk_windows`. -/
def winFrom (c d s k : Nat) : List (Nat × Nat) :=
  (List.range' s k c).map fun x => (x, min (x + c) d)

/-!
Transcription Client: `_transcribe_audio_chunk` (the version of
`process_video_with_captions.py`; `caption_generator.py` is identical except
that its segment dicts carry no `"type"` key).  The external pieces — the
Gemini call and `GeminiClient.extract_json` (from `vertex_libs`, outside
this repository) — are embedded as an explicit outcome parameter.
-/

/-- Python `str.strip()`: remove leading and trailing whitespace. -/
def pyStrip (s : String) : String :=
  String.mk
    (((s.data.dropWhile Char.isWhitespace).reverse.dropWhile Char.isWhitespace).reverse)

/-- Two-decimal rendering of a nonnegative rational, embedding the Python
f-string `{x:.2f}` used in the placeholder texts.  Python formats the
IEEE double with round-half-even; this model rounds half up, which agrees
with it on every value whose hundredths part is not an exact tie (and no
statement below evaluates it at a tie). -/
def fmt2 (q : ℚ) : String :=
  let c : ℤ := ⌊q * 100 + 1 / 2⌋
  let n : Nat := c.toNat
  toString (n / 100) ++ "." ++
    (if n % 100 < 10 then "0" ++ toString (n % 100) else toString (n % 100))

/-- The default placeholder duration: `segment_duration = 5.0  # seconds`. -/
def segment_duration : ℚ := 5

/-- Python `num_segments = max(1, int(duration_sec / segment_duration))`;
`int` truncates toward zero, which for the nonnegative durations produced
by `len(audio_chunk) / 1000.0` is the floor. -/
def num_segments (duration_sec : ℚ) : Nat :=
  max 1 (Int.toNat ⌊duration_sec / segment_duration⌋)

/-- The `except` branch of `_transcribe_audio_chunk`: evenly spaced
placeholder segments
`seg_start = start_time + i * segment_duration`,
`seg_end = start_time + min((i + 1) * segment_duration, duration_sec)`,
text `"[Transcription unavailable {seg_start:.2f}s - {seg_end:.2f}s]"`,
type `"speech"`. -/
def fallback_segments (start_time duration_sec : ℚ) : List Segment :=
  (List.range (num_segments duration_sec)).map fun (i : ℕ) =>
    let seg_start := start_time + (i : ℚ) * segment_duration
    let seg_end := start_time + min (((i : ℚ) + 1) * segment_duration) duration_sec
    { text := "[Transcription unavailable " ++ fmt2 seg_start ++ "s - " ++
        fmt2 seg_end ++ "s]"
      start := seg_start
      stop := seg_end
      type := some "speech" }

/-- RawEntry embeds one element of a JSON array extracted from a service
response: a dict in which each of the four expected keys may be absent. -/
structure RawEntry where
  text : Option String
  start : Option ℚ
  stop : Option ℚ
  type : Option String
deriving DecidableEq, Repr

/-- Outcome of the external transcription call inside the `try` block:
either an exception (`failure`), or a response text together with the
result of `extract_json` (`none` embeds both extraction failure and a
non-list result, since `not json_data or not isinstance(json_data, list)`
then takes the fallback branch; a list result is `some entries`, and the
empty list is falsy in Python so it also takes that branch). -/
inductive TranscribeOutcome where
  | failure
  | response (text : String) (json : Option (List RawEntry))
deriving DecidableEq

/-- The JSON-array branch of `_transcribe_audio_chunk`:
`segment_start = start_time + float(segment.get("start", 0))`,
`segment_end = start_time + float(segment.get("end", segment_start + 5.0))`
(the default for a missing `"end"` is the already-absolute
`segment_start + 5.0`), text defaulting to `"[Transcription error]"` and
type defaulting to `"speech"`. -/
def parse_entries (start_time : ℚ) (entries : List RawEntry) : List Segment :=
  entries.map fun e =>
    let segment_start := start_time + e.start.getD 0
    let segment_end := start_time + e.stop.getD (segment_start + 5)
    { text := e.text.getD "[Transcription error]"
      start := segment_start
      stop := segment_end
      type := some (e.type.getD "speech") }

/-- VideoProcessor._transcribe_audio_chunk as a function of the window
start, the window duration and the outcome of the external call. -/
def transcribe_audio_chunk (start_time duration_sec : ℚ)
    (outcome : TranscribeOutcome) : List Segment :=
  match outcome with
  | .failure => fallback_segments start_time duration_sec
  | .response text json =>
    match json with
    | none => [{ text := pyStrip text, start := start_time,
                 stop := start_time + duration_sec, type := some "speech" }]
    | some [] => [{ text := pyStrip text, start := start_time,
                    stop := start_time + duration_sec, type := some "speech" }]
    | some entries => parse_entries start_time entries

/-- Demo entries for the C8 witness: two entries, both with numeric
`start` and `end`; the second is missing `text` and `type`. -/
def demoEntries : List RawEntry :=
  [{ text := some "first words", start := some 1, stop := some (5/2),
     type := some "speech" },
   { text := none, start := some 3, stop := some 4, type := none }]

/-!
Caption Formatter: `_format_srt_timestamp` / `_format_vtt_timestamp`
(identical in both classes), and the `_format_as_srt` / `_format_as_vtt`
emitters — `VideoProcessor`'s sort and apply type styling,
`CaptionGenerator`'s (`cg_` prefix here) emit the list as given.
-/

/-- Python `int()`: truncation toward zero. -/
def pyInt (q : ℚ) : ℤ := if 0 ≤ q then ⌊q⌋ else ⌈q⌉

/-- Python `divmod(a, b)` on floats: floor quotient and remainder. -/
def divmodQ (a b : ℚ) : ℚ × ℚ := (⌊a / b⌋, a - b * ⌊a / b⌋)

/-- Python `x % 1`, the fractional part fed to the millisecond field. -/
def fracPart (q : ℚ) : ℚ := q - ⌊q⌋

/-- Zero padding of a natural number to a given width. -/
def zeroPadNat (w : Nat) (n : Nat) : String :=
  let s := toString n
  if s.length < w then String.mk (List.replicate (w - s.length) '0') ++ s else s

/-- Python `f"{n:02d}"` / `f"{n:03d}"`: zero padding, sign inside width. -/
def zeroPad (w : Nat) (n : ℤ) : String :=
  if n < 0 then "-" ++ zeroPadNat (w - 1) (-n).toNat else zeroPadNat w n.toNat

/-- Embeds `_format_srt_timestamp`: `HH:MM:SS,mmm` via
`hours, remainder = divmod(seconds, 3600)`,
`minutes, seconds = divmod(remainder, 60)`, with
`int((seconds % 1) * 1000)` milliseconds (truncated). -/
def format_srt_timestamp (seconds : ℚ) : String :=
  let hr := divmodQ seconds 3600
  let ms := divmodQ hr.2 60
  zeroPad 2 (pyInt hr.1) ++ ":" ++ zeroPad 2 (pyInt ms.1) ++ ":" ++
    zeroPad 2 (pyInt ms.2) ++ "," ++ zeroPad 3 (pyInt (fracPart ms.2 * 1000))

/-- Embeds `_format_vtt_timestamp`: as SRT but with a period before milliseconds. -/
def format_vtt_timestamp (seconds : ℚ) : String :=
  let hr := divmodQ seconds 3600
  let ms := divmodQ hr.2 60
  zeroPad 2 (pyInt hr.1) ++ ":" ++ zeroPad 2 (pyInt ms.1) ++ ":" ++
    zeroPad 2 (pyInt ms.2) ++ "." ++ zeroPad 3 (pyInt (fracPart ms.2 * 1000))

/-- Kind-specific SRT text decoration of `VideoProcessor._format_as_srt`. -/
def style_srt (segment : Segment) : String :=
  let text := segment.text
  let segment_type := segment.type.getD "speech"
  if segment_type = "music" ∧ ¬ text.startsWith "[♪" then "[♪ " ++ text ++ " ♪]"
  else if segment_type = "sound" ∧ ¬ text.startsWith "[Sound:" then
    "[Sound: " ++ text ++ "]"
  else if segment_type = "silence" ∧ ¬ text.startsWith "[" then "[" ++ text ++ "]"
  else text

/-- Kind-specific VTT markup of `VideoProcessor._format_as_vtt`. -/
def style_vtt (segment : Segment) : String :=
  let text := segment.text
  let segment_type := segment.type.getD "speech"
  if segment_type = "music" ∧ ¬ text.startsWith "[♪" then
    "<i>[♪ " ++ text ++ " ♪]</i>"
  else if segment_type = "sound" ∧ ¬ text.startsWith "[Sound:" then
    "<b>[Sound: " ++ text ++ "]</b>"
  else if segment_type = "silence" ∧ ¬ text.startsWith "[" then "[" ++ text ++ "]"
  else text

/-- VideoProcessor._format_as_srt: sorts by start, then per segment emits
index, timestamp range, styled text and a blank separator, joined by
newlines. -/
def format_as_srt (segments : List Segment) : String :=
  let sorted_segments := sortByStart segments
  String.intercalate "\n" (sorted_segments.enum.flatMap fun p =>
    [toString (p.1 + 1),
     format_srt_timestamp p.2.start ++ " --> " ++ format_srt_timestamp p.2.stop,
     style_srt p.2, ""])

/-- VideoProcessor._format_as_vtt: `WEBVTT` header, then per segment a cue
identifier, timestamp range, styled text and a blank separator. -/
def format_as_vtt (segments : List Segment) : String :=
  let sorted_segments := sortByStart segments
  String.intercalate "\n" (["WEBVTT", ""] ++ sorted_segments.enum.flatMap fun p =>
    ["cue-" ++ toString (p.1 + 1),
     format_vtt_timestamp p.2.start ++ " --> " ++ format_vtt_timestamp p.2.stop,
     style_vtt p.2, ""])

/-- CaptionGenerator._format_as_srt: no re-sort, no styling; segments are
emitted in the order given. -/
def cg_format_as_srt (segments : List Segment) : String :=
  String.intercalate "\n" (segments.enum.flatMap fun p =>
    [toString (p.1 + 1),
     format_srt_timestamp p.2.start ++ " --> " ++ format_srt_timestamp p.2.stop,
     p.2.text, ""])

/-- CaptionGenerator._format_as_vtt: header, then per segment (input order,
no cue ids) a timestamp range, the raw text and a blank separator. -/
def cg_format_as_vtt (segments : List Segment) : String :=
  String.intercalate "\n" (["WEBVTT", ""] ++ segments.flatMap fun s =>
    [format_vtt_timestamp s.start ++ " --> " ++ format_vtt_timestamp s.stop,
     s.text, ""])

/-- Demo segments for C3: two speech segments with distinct starts. -/
def segA : Segment := { text := "A", start := 0, stop := 1, type := some "speech" }

/-- Second demo segment, starting later than `segA`. -/
def segB : Segment := { text := "B", start := 5, stop := 6, type := some "speech" }

/-- Tie demo segments for the C3 counterexample: equal starts. -/
def segT1 : Segment := { text := "T1", start := 0, stop := 1, type := some "speech" }

/-- Second tie segment, same start as `segT1` but different text. -/
def segT2 : Segment := { text := "T2", start := 0, stop := 1, type := some "speech" }

/-!
Timing Optimizer: `VideoProcessor._finalize_timing`.  The service call and
JSON extraction are embedded as an explicit response parameter.
-/

/-- Outcome of the optimization call: an exception (`err`), a falsy or
non-list extraction result (`notList`), or a JSON array of elements with
possibly missing keys. -/
inductive OptResponse where
  | err
  | notList
  | list (elems : List RawEntry)
deriving DecidableEq

/-- VideoProcessor._finalize_timing: empty transcript short-circuits to
`[]`; otherwise the transcript is sorted by start and the optimizer result
replaces it only when it is a non-empty array in which every element
carries all four required fields (`text`, `start`, `end`, `type`). -/
def finalize_timing (transcript_segments : List Segment)
    (resp : OptResponse) : List Segment :=
  if transcript_segments = [] then []
  else
    let sorted_segments := sortByStart transcript_segments
    match resp with
    | .err => sorted_segments
    | .notList => sorted_segments
    | .list elems =>
      if elems ≠ [] ∧ ∀ e ∈ elems,
          (e.text.isSome ∧ e.start.isSome ∧ e.stop.isSome ∧ e.type.isSome) then
        elems.map fun e =>
          { text := e.text.getD "", start := e.start.getD 0,
            stop := e.stop.getD 0, type := e.type }
      else sorted_segments

/-- Demo transcript for the C4 witness. -/
def demoTranscript : List Segment :=
  [{ text := "x", start := 1, stop := 2, type := some "speech" }]

/-- Demo optimizer response for the C4 witness: one element missing the
`type` field (the spec's own safety scenario). -/
def demoOptResp : OptResponse :=
  OptResponse.list
    [{ text := some "x", start := some 1, stop := some 2, type := none }]

/-!
Gap Analyzer: `VideoProcessor._analyze_audio_gap`.  The gap slice's
loudness (`gap_audio.dBFS`) and the classification-service outcome are
explicit parameters.
-/

/-- GapJson embeds `extract_json` of the classification response when it is
a dict: the `"type"` and `"text"` keys may each be absent. -/
structure GapJson where
  type : Option String
  text : Option String
deriving DecidableEq

/-- Outcome of the gap-classification call: an exception (`err`), or a
response whose extracted JSON is a dict (`resp (some j)`) or falsy/non-dict
(`resp none`). -/
inductive GapSvc where
  | err
  | resp (json : Option GapJson)
deriving DecidableEq

/-- The Python constant `silence_threshold = -50  # dB`. -/
def silence_threshold : ℚ := -50

/-- The deterministic fallback of `_analyze_audio_gap`: kind `silence` with
text `"[Silence]"` when the slice is silent, else kind `sound` with text
`"[Background sounds]"`. -/
def gap_fallback (is_silence : Bool) (start_time end_time : ℚ) : Segment :=
  { text := if is_silence then "[Silence]" else "[Background sounds]"
    start := start_time
    stop := end_time
    type := some (if is_silence then "silence" else "sound") }

/-- The `try` body's result: the segment built from the service's dict when
it carries both `"type"` and `"text"`, else the deterministic fallback
(which is also reached on an exception). -/
def gap_from_svc (is_silence : Bool) (start_time end_time : ℚ) :
    GapSvc → Segment
  | GapSvc.resp (some j) =>
    if j.type.isSome ∧ j.text.isSome then
      { text := j.text.getD "", start := start_time, stop := end_time,
        type := j.type }
    else gap_fallback is_silence start_time end_time
  | _ => gap_fallback is_silence start_time end_time

/-- VideoProcessor._analyze_audio_gap: if the slice is not silent, or the
gap is longer than 3 s, a segment is produced via `gap_from_svc`;
otherwise `None`. -/
def analyze_audio_gap (dBFS start_time end_time : ℚ) (svc : GapSvc) :
    Option Segment :=
  let is_silence : Bool := decide (dBFS < silence_threshold)
  if is_silence = false ∨ end_time - start_time > 3 then
    some (gap_from_svc is_silence start_time end_time svc)
  else none

/-!
Gap detection: `VideoProcessor._detect_and_fill_gaps`.  The call
`self._analyze_audio_gap(gap_audio, a, b)` is embedded as an oracle
`analyze : ℚ → ℚ → Option Segment` taking the gap bounds (the audio slice
is determined by them).
-/

/-- The loop of `_detect_and_fill_gaps` from a given `current_time`: insert
the analyzer's segment before each draft whose start is more than 1 s past
`current_time`, advance `current_time` to each draft's end, and finally
check the tail gap against the window end. -/
def fill_walk (analyze : ℚ → ℚ → Option Segment) (end_time : ℚ) :
    ℚ → List Segment → List Segment
  | current_time, [] =>
    if end_time - current_time > 1 then (analyze current_time end_time).toList
    else []
  | current_time, current_segment :: rest =>
    (if current_segment.start - current_time > 1 then
      (analyze current_time current_segment.start).toList
    else []) ++
      current_segment :: fill_walk analyze end_time current_segment.stop rest

/-- VideoProcessor._detect_and_fill_gaps: sort the drafts by start; an
empty draft list short-circuits to `[]`; otherwise check the gap between
the window start and the first draft, then walk the rest. -/
def detect_and_fill_gaps (analyze : ℚ → ℚ → Option Segment)
    (segments : List Segment) (start_time end_time : ℚ) : List Segment :=
  match sortByStart segments with
  | [] => []
  | first :: rest =>
    (if first.start - start_time > 1 then
      (analyze start_time first.start).toList
    else []) ++ first :: fill_walk analyze end_time first.stop rest

/-- Analyzer oracle for the C6 witness: would insert a segment for any gap
it is consulted on. -/
def demoAnalyze : ℚ → ℚ → Option Segment := fun s e =>
  some { text := "[gap]", start := s, stop := e, type := some "silence" }

/-- Draft segments for the C6 witness: a 0.5 s gap between the two drafts
inside the window `[0, 4]`, no boundary gaps above 1 s. -/
def demoDrafts : List Segment :=
  [{ text := "a", start := 0, stop := 2, type := some "speech" },
   { text := "b", start := 5/2, stop := 4, type := some "speech" }]

/-! Theorems. -/

theorem sortByStart_perm (segments : List Segment) :
    List.Perm (sortByStart segments) segments :=
  List.perm_insertionSort _ segments

theorem sortByStart_sorted (segments : List Segment) :
    List.Sorted (fun a b => a.start ≤ b.start) (sortByStart segments) :=
  List.sorted_insertionSort _ segments

theorem chunk_windows_eq_winFrom (d c : Nat) :
    chunk_windows d c = winFrom c d 0 ((d + c - 1) / c) := rfl

theorem winFrom_succ (c d s k : Nat) :
    winFrom c d s (k + 1) = (s, min (s + c) d) :: winFrom c d (s + c) k := by
  simp [winFrom, List.range'_succ]

theorem winFrom_chain (c d : Nat) :
    ∀ k s, s + (k - 1) * c < d →
      List.Chain' (fun a b : Nat × Nat => a.2 = b.1) (winFrom c d s k)
  | 0, s, _ => by simp [winFrom]
  | 1, s, _ => by simp [winFrom]
  | (k + 2), s, h => by
    have h' : s + (k + 1) * c < d := by simpa using h
    have hsplit : (k + 1) * c = k * c + c := by ring
    rw [winFrom_succ, winFrom_succ]
    refine List.Chain'.cons ?_ ?_
    · have hcle : c ≤ (k + 1) * c := Nat.le_mul_of_pos_left c (by omega)
      have hsc : s + c ≤ d := by omega
      simp [Nat.min_eq_left hsc]
    · rw [← winFrom_succ]
      exact winFrom_chain c d (k + 1) (s + c) (by
        simp only [Nat.add_sub_cancel]
        omega)

theorem winFrom_mem_pos (c d : Nat) (hc : 0 < c) :
    ∀ k s, s + (k - 1) * c < d →
      ∀ p ∈ winFrom c d s k, p.1 < p.2 := by
  intro k s h p hp
  simp only [winFrom, List.mem_map] at hp
  obtain ⟨x, hx, rfl⟩ := hp
  rw [List.mem_range'] at hx
  obtain ⟨i, hik, rfl⟩ := hx
  have hxd : s + c * i < d := by
    have : c * i ≤ (k - 1) * c := by
      have : i ≤ k - 1 := by omega
      calc c * i = i * c := Nat.mul_comm c i
        _ ≤ (k - 1) * c := Nat.mul_le_mul_right c this
    omega
  simp only [lt_min_iff]
  omega

theorem winFrom_head (c d s k : Nat) (hk : 0 < k) :
    (winFrom c d s k).head? = some (s, min (s + c) d) := by
  obtain ⟨k', rfl⟩ : ∃ k', k = k' + 1 := ⟨k - 1, by omega⟩
  rw [winFrom_succ]; rfl

theorem winFrom_last (c d : Nat) :
    ∀ k s, 0 < k → d ≤ s + k * c →
      ∀ p, (winFrom c d s k).getLast? = some p → p.2 = d
  | 0, _, hk, _ => by omega
  | 1, s, _, hd => by
    intro p hp
    have h0 : winFrom c d (s + c) 0 = [] := rfl
    rw [winFrom_succ, h0] at hp
    simp only [List.getLast?_singleton, Option.some_inj] at hp
    subst hp
    exact Nat.min_eq_right (by omega)
  | (k + 2), s, _, hd => by
    intro p hp
    have hsplit : (k + 2) * c = c + (k + 1) * c := by ring
    rw [winFrom_succ, winFrom_succ, List.getLast?_cons_cons, ← winFrom_succ] at hp
    exact winFrom_last c d (k + 1) (s + c) (by omega) (by omega) p hp

theorem winFrom_cover (c d : Nat) (hc : 0 < c) :
    ∀ k s, d ≤ s + k * c →
      ∀ t, (s ≤ t ∧ t < d) ↔ ∃ p ∈ winFrom c d s k, p.1 ≤ t ∧ t < p.2
  | 0, s, hd, t => by
    simp only [winFrom, List.range', List.map_nil]
    simp only [List.not_mem_nil]
    constructor
    · intro ⟨h1, h2⟩; omega
    · intro ⟨p, hp, _⟩; exact absurd hp (by simp)
  | (k + 1), s, hd, t => by
    have hsplit : (k + 1) * c = k * c + c := by ring
    rw [winFrom_succ]
    constructor
    · intro ⟨hst, htd⟩
      by_cases h : t < min (s + c) d
      · exact ⟨(s, min (s + c) d), by simp, hst, h⟩
      · have hmin : min (s + c) d ≤ t := not_lt.mp h
        have hsc : s + c ≤ t := by
          rcases le_total (s + c) d with hle | hle
          · rwa [Nat.min_eq_left hle] at hmin
          · rw [Nat.min_eq_right hle] at hmin; omega
        have := (winFrom_cover c d hc k (s + c) (by omega) t).mp ⟨hsc, htd⟩
        obtain ⟨p, hp, hpt⟩ := this
        exact ⟨p, List.mem_cons_of_mem _ hp, hpt⟩
    · intro ⟨p, hp, hpt⟩
      rcases List.mem_cons.mp hp with h | h
      · subst h
        obtain ⟨hpt1, hpt2⟩ := hpt
        exact ⟨hpt1, lt_of_lt_of_le hpt2 (by simp)⟩
      · have := (winFrom_cover c d hc k (s + c) (by omega) t).mpr ⟨p, h, hpt⟩
        exact ⟨by omega, this.2⟩

theorem winFrom_pairwise (c d : Nat) (hc : 0 < c) :
    ∀ k s, List.Pairwise (fun a b : Nat × Nat => a.2 ≤ b.1) (winFrom c d s k)
  | 0, s => by simp [winFrom]
  | (k + 1), s => by
    rw [winFrom_succ]
    refine List.Pairwise.cons ?_ (winFrom_pairwise c d hc k (s + c))
    intro p hp
    simp only [winFrom, List.mem_map] at hp
    obtain ⟨x, hx, rfl⟩ := hp
    rw [List.mem_range'] at hx
    obtain ⟨i, _, rfl⟩ := hx
    simp only
    calc min (s + c) d ≤ s + c := Nat.min_le_left _ _
      _ ≤ s + c + c * i := by omega

theorem chunk_k_bounds (d c : Nat) (hd : 0 < d) (hc : 0 < c) :
    0 < (d + c - 1) / c ∧ d ≤ ((d + c - 1) / c) * c ∧ (((d + c - 1) / c) - 1) * c < d := by
  have hkeq : (d + c - 1) / c = (d - 1) / c + 1 := by
    rw [show d + c - 1 = (d - 1) + c by omega, Nat.add_div_right _ hc]
  have hmul : ((d - 1) / c) * c ≤ d - 1 := Nat.div_mul_le_self _ _
  have hmod := Nat.div_add_mod (d - 1) c
  have hmodlt : (d - 1) % c < c := Nat.mod_lt _ hc
  have hcm : c * ((d - 1) / c) = ((d - 1) / c) * c := Nat.mul_comm _ _
  refine ⟨Nat.div_pos (by omega) hc, ?_, ?_⟩
  · rw [hkeq, Nat.add_mul, Nat.one_mul]
    omega
  · rw [hkeq, Nat.add_sub_cancel]
    omega

/-- C2: for every positive track duration and chunk size, the chunking loop
produces finitely many contiguous non-overlapping windows whose half-open
intervals union to exactly `[0, duration)`: the list is non-empty, the first
window starts at 0, each subsequent window starts where the previous one
ends, the last window ends exactly at the duration, every window is
non-degenerate, windows are pairwise non-overlapping, and a time is below
the duration iff some window contains it. -/
theorem chunker_full_coverage (duration_ms chunk_size_ms : Nat)
    (hd : 0 < duration_ms) (hc : 0 < chunk_size_ms) :
    chunk_windows duration_ms chunk_size_ms ≠ [] ∧
    (∀ p, (chunk_windows duration_ms chunk_size_ms).head? = some p → p.1 = 0) ∧
    List.Chain' (fun a b => a.2 = b.1) (chunk_windows duration_ms chunk_size_ms) ∧
    (∀ p, (chunk_windows duration_ms chunk_size_ms).getLast? = some p →
      p.2 = duration_ms) ∧
    (∀ p ∈ chunk_windows duration_ms chunk_size_ms, p.1 < p.2) ∧
    List.Pairwise (fun a b => a.2 ≤ b.1) (chunk_windows duration_ms chunk_size_ms) ∧
    (∀ t, t < duration_ms ↔
      ∃ p ∈ chunk_windows duration_ms chunk_size_ms, p.1 ≤ t ∧ t < p.2) := by
  obtain ⟨hk0, hk1, hk2⟩ := chunk_k_bounds duration_ms chunk_size_ms hd hc
  rw [chunk_windows_eq_winFrom]
  refine ⟨?_, ?_, ?_, ?_, ?_, ?_, ?_⟩
  · intro h
    have := winFrom_head chunk_size_ms duration_ms 0
      ((duration_ms + chunk_size_ms - 1) / chunk_size_ms) hk0
    rw [h] at this
    exact Option.noConfusion this
  · intro p hp
    rw [winFrom_head _ _ _ _ hk0] at hp
    cases hp
    rfl
  · exact winFrom_chain _ _ _ _ (by simpa using hk2)
  · exact winFrom_last _ _ _ _ hk0 (by simpa using hk1)
  · exact winFrom_mem_pos _ _ hc _ _ (by simpa using hk2)
  · exact winFrom_pairwise _ _ hc _ _
  · intro t
    have := winFrom_cover chunk_size_ms duration_ms hc
      ((duration_ms + chunk_size_ms - 1) / chunk_size_ms) 0 (by simpa using hk1) t
    simpa using this

/-- Witness for C2 at `duration = 65000 ms`, `chunk = 30000 ms`
(the spec's end-to-end scenario: windows `[0,30000)`, `[30000,60000)`,
`[60000,65000)`). -/
theorem chunker_full_coverage_witness :
    0 < 65000 ∧ 0 < 30000 ∧
      chunk_windows 65000 30000 = [(0, 30000), (30000, 60000), (60000, 65000)] ∧
      chunk_windows 65000 30000 ≠ [] := by
  refine ⟨by decide, by decide, by decide, ?_⟩
  exact (chunker_full_coverage 65000 30000 (by decide) (by decide)).1

/-- C1: the claimed full-window coverage of the failure fallback does not
hold in the code.  At a window of duration 7 s whose transcription call
fails, `num_segments = max(1, int(7 / 5)) = 1`, so the fallback emits the
single placeholder `[start, start + 5)` and the tail `[start + 5, start + 7)`
of the window is left uncovered (here at window start 0 the point `t = 6`
lies in `[0, 7)` but in no placeholder), contradicting the spec's hard
invariant that a failed window never leaves a hole. -/
theorem transcribe_fallback_hole_at_7s :
    transcribe_audio_chunk 0 7 TranscribeOutcome.failure =
      [{ text := "[Transcription unavailable 0.00s - 5.00s]",
         start := 0, stop := 5, type := some "speech" }] ∧
    (∀ s ∈ transcribe_audio_chunk 0 7 TranscribeOutcome.failure,
      ¬ (s.start ≤ 6 ∧ (6 : ℚ) < s.stop)) ∧
    (0 : ℚ) ≤ 6 ∧ (6 : ℚ) < 7 := by
  have h1 : num_segments 7 = 1 := by norm_num [num_segments, segment_duration]
  have hlist : transcribe_audio_chunk 0 7 TranscribeOutcome.failure =
      [{ text := "[Transcription unavailable 0.00s - 5.00s]",
         start := 0, stop := 5, type := some "speech" }] := by
    show fallback_segments 0 7 = _
    rw [fallback_segments, h1]
    simp only [List.range_succ, List.range_zero, List.map_cons, List.map_nil,
      List.nil_append]
    norm_num [fmt2, segment_duration]
    decide
  refine ⟨hlist, ?_, by norm_num, by norm_num⟩
  intro s hs
  rw [hlist] at hs
  simp only [List.mem_singleton] at hs
  subst hs
  intro ⟨_, h6⟩
  norm_num at h6

/-- C7: for a 30-second window at the track origin whose transcription call
always fails, with the default 5-second placeholder duration, exactly six
placeholder segments `[0,5), [5,10), [10,15), [15,20), [20,25), [25,30)` are
produced, pairwise non-overlapping and covering `[0, 30)` exactly. -/
theorem fallback_30s_exact_cover :
    (transcribe_audio_chunk 0 30 TranscribeOutcome.failure).length = 6 ∧
    (transcribe_audio_chunk 0 30 TranscribeOutcome.failure).map
        (fun s => (s.start, s.stop)) =
      [(0, 5), (5, 10), (10, 15), (15, 20), (20, 25), (25, 30)] ∧
    List.Pairwise (fun a b => a.stop ≤ b.start)
      (transcribe_audio_chunk 0 30 TranscribeOutcome.failure) ∧
    (∀ t : ℚ, 0 ≤ t → t < 30 →
      ∃ s ∈ transcribe_audio_chunk 0 30 TranscribeOutcome.failure,
        s.start ≤ t ∧ t < s.stop) := by
  have h6 : num_segments 30 = 6 := by
    norm_num [num_segments, segment_duration]
    decide
  have hr : List.range 6 = [0, 1, 2, 3, 4, 5] := rfl
  have hlist : transcribe_audio_chunk 0 30 TranscribeOutcome.failure =
      [{ text := "[Transcription unavailable 0.00s - 5.00s]",
         start := 0, stop := 5, type := some "speech" },
       { text := "[Transcription unavailable 5.00s - 10.00s]",
         start := 5, stop := 10, type := some "speech" },
       { text := "[Transcription unavailable 10.00s - 15.00s]",
         start := 10, stop := 15, type := some "speech" },
       { text := "[Transcription unavailable 15.00s - 20.00s]",
         start := 15, stop := 20, type := some "speech" },
       { text := "[Transcription unavailable 20.00s - 25.00s]",
         start := 20, stop := 25, type := some "speech" },
       { text := "[Transcription unavailable 25.00s - 30.00s]",
         start := 25, stop := 30, type := some "speech" }] := by
    show fallback_segments 0 30 = _
    rw [fallback_segments, h6, hr]
    simp only [List.map_cons, List.map_nil]
    norm_num [fmt2, segment_duration]
    decide
  refine ⟨by rw [hlist]; rfl, by rw [hlist]; norm_num, ?_, ?_⟩
  · rw [hlist]
    norm_num [List.pairwise_cons]
  · intro t ht0 ht30
    rw [hlist]
    rcases lt_or_le t 5 with h5 | h5
    · exact ⟨_, List.Mem.head _, ht0, h5⟩
    rcases lt_or_le t 10 with h10 | h10
    · exact ⟨_, List.Mem.tail _ (List.Mem.head _), h5, h10⟩
    rcases lt_or_le t 15 with h15 | h15
    · exact ⟨_, List.Mem.tail _ (List.Mem.tail _ (List.Mem.head _)), h10, h15⟩
    rcases lt_or_le t 20 with h20 | h20
    · exact ⟨_, List.Mem.tail _ (List.Mem.tail _ (List.Mem.tail _ (List.Mem.head _))),
        h15, h20⟩
    rcases lt_or_le t 25 with h25 | h25
    · exact ⟨_, List.Mem.tail _ (List.Mem.tail _ (List.Mem.tail _ (List.Mem.tail _
        (List.Mem.head _)))), h20, h25⟩
    · exact ⟨_, List.Mem.tail _ (List.Mem.tail _ (List.Mem.tail _ (List.Mem.tail _
        (List.Mem.tail _ (List.Mem.head _))))), h25, ht30⟩

/-- Witness for C7's coverage conjunct at the concrete time `t = 12`. -/
theorem fallback_30s_exact_cover_witness :
    (0 : ℚ) ≤ 12 ∧ (12 : ℚ) < 30 ∧
    ∃ s ∈ transcribe_audio_chunk 0 30 TranscribeOutcome.failure,
      s.start ≤ 12 ∧ (12 : ℚ) < s.stop :=
  ⟨by norm_num, by norm_num,
    fallback_30s_exact_cover.2.2.2 12 (by norm_num) (by norm_num)⟩

/-- C8: for every window start offset `W` and every well-formed response
whose extracted JSON is a non-empty array of entries each carrying numeric
`start` and `end` fields, parsing yields exactly as many Segments as
entries, in order, the i-th Segment's start being `W +` the i-th entry's
`start` and its end `W +` the i-th entry's `end` (and the i-th text taken
from the i-th entry). -/
theorem parse_shifts_by_window_start (start_time duration_sec : ℚ)
    (text : String) (entries : List RawEntry) (hne : entries ≠ [])
    (hfields : ∀ e ∈ entries, e.start.isSome ∧ e.stop.isSome) :
    (transcribe_audio_chunk start_time duration_sec
        (TranscribeOutcome.response text (some entries))).length = entries.length ∧
    ∀ i, i < entries.length →
      (transcribe_audio_chunk start_time duration_sec
          (TranscribeOutcome.response text (some entries)))[i]? =
        (entries[i]?).map fun e =>
          { text := e.text.getD "[Transcription error]"
            start := start_time + e.start.getD 0
            stop := start_time + e.stop.getD 0
            type := some (e.type.getD "speech") } := by
  obtain ⟨e₀, es, rfl⟩ : ∃ e₀ es, entries = e₀ :: es := by
    cases entries with
    | nil => exact absurd rfl hne
    | cons a l => exact ⟨a, l, rfl⟩
  have hout : transcribe_audio_chunk start_time duration_sec
      (TranscribeOutcome.response text (some (e₀ :: es))) =
      parse_entries start_time (e₀ :: es) := rfl
  rw [hout]
  constructor
  · simp [parse_entries]
  · intro i hi
    have hgetm : (e₀ :: es)[i]? = some (e₀ :: es)[i] := List.getElem?_eq_getElem hi
    have hmem : (e₀ :: es)[i] ∈ (e₀ :: es) := List.getElem_mem hi
    obtain ⟨hs, he⟩ := hfields _ hmem
    obtain ⟨v, hv⟩ := Option.isSome_iff_exists.mp he
    rw [parse_entries, List.getElem?_map, hgetm]
    simp [hv]

/-- Witness for C8 at window start 10, response of two entries. -/
theorem parse_shifts_by_window_start_witness :
    (transcribe_audio_chunk 10 30
        (TranscribeOutcome.response "raw" (some demoEntries))).length = 2 ∧
    (transcribe_audio_chunk 10 30
        (TranscribeOutcome.response "raw" (some demoEntries)))[1]? =
      some { text := "[Transcription error]", start := 13, stop := 14,
             type := some "speech" } := by
  have h := parse_shifts_by_window_start 10 30 "raw" demoEntries
    (by decide) (by decide)
  refine ⟨h.1, ?_⟩
  rw [h.2 1 (by decide)]
  norm_num [demoEntries]

/-- C10 as amended: a well-formed but empty extracted JSON array is treated
exactly like an extraction failure — a single fallback Segment spanning the
whole window whose text is the whitespace-stripped raw response text — and
`_transcribe_audio_chunk` always returns at least one segment. -/
theorem empty_array_like_extraction_failure (start_time duration_sec : ℚ)
    (text : String) :
    transcribe_audio_chunk start_time duration_sec
        (TranscribeOutcome.response text (some [])) =
      transcribe_audio_chunk start_time duration_sec
        (TranscribeOutcome.response text none) ∧
    transcribe_audio_chunk start_time duration_sec
        (TranscribeOutcome.response text (some [])) =
      [{ text := pyStrip text, start := start_time,
         stop := start_time + duration_sec, type := some "speech" }] ∧
    ∀ outcome, 1 ≤ (transcribe_audio_chunk start_time duration_sec outcome).length := by
  refine ⟨rfl, rfl, ?_⟩
  intro outcome
  match outcome with
  | .failure =>
    show 1 ≤ (fallback_segments start_time duration_sec).length
    have hlen : (fallback_segments start_time duration_sec).length =
        num_segments duration_sec := by
      rw [fallback_segments, List.length_map, List.length_range]
    rw [hlen, num_segments]
    exact Nat.le_max_left _ _
  | .response t none => exact Nat.le_refl 1
  | .response t (some []) => exact Nat.le_refl 1
  | .response t (some (e :: es)) =>
    show 1 ≤ (parse_entries start_time (e :: es)).length
    simp [parse_entries]

/-- C10 counterexample to the claim as stated: the fallback segment's text
is the stripped response text, not the full raw response text — for the raw
response `"hello\n"` the emitted text is `"hello"`. -/
theorem empty_array_raw_text_counterexample :
    (transcribe_audio_chunk 0 30
        (TranscribeOutcome.response "hello\n" (some []))).map Segment.text =
      ["hello"] ∧
    (∀ s ∈ transcribe_audio_chunk 0 30
        (TranscribeOutcome.response "hello\n" (some [])), s.text ≠ "hello\n") := by
  have hx : transcribe_audio_chunk 0 30
      (TranscribeOutcome.response "hello\n" (some [])) =
      [{ text := pyStrip "hello\n", start := 0, stop := 0 + 30,
         type := some "speech" }] := rfl
  have ht : pyStrip "hello\n" = "hello" := by decide
  constructor
  · rw [hx]
    simp [ht]
  · intro s hs
    rw [hx] at hs
    simp only [List.mem_singleton] at hs
    subst hs
    simp only [ht]
    decide

/-- C9: the timestamp formatters meet the spec's test vectors:
`_format_srt_timestamp(3725.4) = "01:02:05,400"` and
`_format_vtt_timestamp(0.0) = "00:00:00.000"` (hours/minutes/seconds by
integer division and modulo, milliseconds truncated, comma for SRT and
period for VTT). -/
theorem timestamp_test_vectors :
    format_srt_timestamp (3725.4 : ℚ) = "01:02:05,400" ∧
    format_vtt_timestamp 0 = "00:00:00.000" := by
  have hpy1 : pyInt (1 : ℚ) = 1 := by norm_num [pyInt]
  have hpy2 : pyInt (2 : ℚ) = 2 := by norm_num [pyInt]
  have hpy0 : pyInt (0 : ℚ) = 0 := by norm_num [pyInt]
  have hpy54 : pyInt (5.4 : ℚ) = 5 := by
    rw [pyInt, if_pos (by norm_num)]
    norm_num
  have hpy400 : pyInt (400 : ℚ) = 400 := by norm_num [pyInt]
  have hfrac : fracPart (5.4 : ℚ) * 1000 = 400 := by
    rw [fracPart]
    norm_num
  have hfrac0 : fracPart (0 : ℚ) * 1000 = 0 := by norm_num [fracPart]
  have e1 : divmodQ (3725.4 : ℚ) 3600 = (1, 125.4) := by
    have h1 : ⌊(3725.4 : ℚ) / 3600⌋ = 1 := by norm_num
    rw [divmodQ, h1]
    norm_num
  have e2 : divmodQ (125.4 : ℚ) 60 = (2, 5.4) := by
    have h3 : ⌊(125.4 : ℚ) / 60⌋ = 2 := by norm_num
    rw [divmodQ, h3]
    norm_num
  have e0a : divmodQ (0 : ℚ) 3600 = (0, 0) := by
    rw [divmodQ]
    norm_num
  have e0b : divmodQ (0 : ℚ) 60 = (0, 0) := by
    rw [divmodQ]
    norm_num
  constructor
  · rw [format_srt_timestamp]
    simp only [e1, e2]
    rw [hpy1, hpy2, hpy54, hfrac, hpy400]
    decide
  · rw [format_vtt_timestamp]
    simp only [e0a, e0b]
    rw [hpy0, hfrac0, hpy0]
    decide

theorem sortByStart_idem (l : List Segment) :
    sortByStart (sortByStart l) = sortByStart l :=
  (sortByStart_sorted l).insertionSort_eq

theorem sortByStart_strict_of_nodup (l : List Segment)
    (hnd : (l.map Segment.start).Nodup) :
    List.Pairwise (fun a b : Segment => a.start < b.start) (sortByStart l) := by
  have hsorted : List.Pairwise (fun a b : Segment => a.start ≤ b.start)
      (sortByStart l) := sortByStart_sorted l
  have hnd' : ((sortByStart l).map Segment.start).Nodup := by
    rw [List.Perm.nodup_iff ((sortByStart_perm l).map Segment.start)]
    exact hnd
  have hne : List.Pairwise (fun a b : Segment => a.start ≠ b.start)
      (sortByStart l) := List.pairwise_map.mp hnd'
  exact (hsorted.and hne).imp fun h => lt_of_le_of_ne h.1 h.2

theorem sortByStart_eq_of_perm (l₁ l₂ : List Segment)
    (hp : List.Perm l₁ l₂) (hnd : (l₁.map Segment.start).Nodup) :
    sortByStart l₁ = sortByStart l₂ := by
  have hp' : List.Perm (sortByStart l₁) (sortByStart l₂) :=
    ((sortByStart_perm l₁).trans hp).trans (sortByStart_perm l₂).symm
  have hnd₂ : (l₂.map Segment.start).Nodup := by
    rw [← List.Perm.nodup_iff (hp.map Segment.start)]
    exact hnd
  exact List.eq_of_perm_of_sorted hp'
    (sortByStart_strict_of_nodup l₁ hnd) (sortByStart_strict_of_nodup l₂ hnd₂)

/-- C3 as amended: `VideoProcessor`'s SRT and VTT formatters re-sort by
start before emission — formatting a list equals formatting its sorted
version, the emitted cue sequence follows the non-decreasing start order of
the sorted list, and formatting is invariant under permutation whenever the
start values are pairwise distinct (a stable-sort tie, and
`CaptionGenerator`'s non-sorting formatters, break the unrestricted
permutation claim; see the counterexample). -/
theorem formatters_resort_before_emission :
    (∀ l : List Segment,
      format_as_srt l = format_as_srt (sortByStart l) ∧
      format_as_vtt l = format_as_vtt (sortByStart l) ∧
      List.Sorted (fun a b : ℚ => a ≤ b) ((sortByStart l).map Segment.start)) ∧
    (∀ l₁ l₂ : List Segment, List.Perm l₁ l₂ → (l₁.map Segment.start).Nodup →
      format_as_srt l₁ = format_as_srt l₂ ∧ format_as_vtt l₁ = format_as_vtt l₂) := by
  constructor
  · intro l
    refine ⟨?_, ?_, ?_⟩
    · rw [format_as_srt, format_as_srt, sortByStart_idem]
    · rw [format_as_vtt, format_as_vtt, sortByStart_idem]
    · exact List.pairwise_map.mpr (sortByStart_sorted l)
  · intro l₁ l₂ hp hnd
    have h := sortByStart_eq_of_perm l₁ l₂ hp hnd
    constructor
    · rw [format_as_srt, format_as_srt, h]
    · rw [format_as_vtt, format_as_vtt, h]

/-- Witness for C3: formatting `[segA, segB]` and its permutation
`[segB, segA]` (distinct starts) yields the same SRT text. -/
theorem formatters_resort_before_emission_witness :
    format_as_srt [segA, segB] = format_as_srt [segB, segA] :=
  (formatters_resort_before_emission.2 [segA, segB] [segB, segA]
    (List.Perm.swap segB segA [])
    (by
      simp only [List.map_cons, List.map_nil, List.nodup_cons, List.mem_singleton,
        List.mem_nil_iff, List.nodup_nil, segA, segB]
      norm_num)).1

/-- C3 counterexample to the claim as stated: `CaptionGenerator`'s SRT
formatter (one of the claim's cited symbols) does not re-sort — formatting
the unsorted permutation `[segB, segA]` emits the cue starting at 5 before
the cue starting at 0 and yields a different text than the sorted list —
and even `VideoProcessor`'s sorting SRT formatter is not
permutation-invariant on a tie (equal starts, different texts). -/
theorem formatters_resort_counterexample :
    cg_format_as_srt [segB, segA] ≠ cg_format_as_srt [segA, segB] ∧
    format_as_srt [segT1, segT2] ≠ format_as_srt [segT2, segT1] := by
  have hts0 : format_srt_timestamp 0 = "00:00:00,000" := by
    have e1 : divmodQ (0 : ℚ) 3600 = (0, 0) := by rw [divmodQ]; norm_num
    have e2 : divmodQ (0 : ℚ) 60 = (0, 0) := by rw [divmodQ]; norm_num
    have hpy0 : pyInt (0 : ℚ) = 0 := by norm_num [pyInt]
    have hfrac0 : fracPart (0 : ℚ) * 1000 = 0 := by norm_num [fracPart]
    rw [format_srt_timestamp]
    simp only [e1, e2]
    rw [hpy0, hfrac0, hpy0]
    decide
  have hts1 : format_srt_timestamp 1 = "00:00:01,000" := by
    have e1 : divmodQ (1 : ℚ) 3600 = (0, 1) := by rw [divmodQ]; norm_num
    have e2 : divmodQ (1 : ℚ) 60 = (0, 1) := by rw [divmodQ]; norm_num
    have hpy0 : pyInt (0 : ℚ) = 0 := by norm_num [pyInt]
    have hpy1 : pyInt (1 : ℚ) = 1 := by norm_num [pyInt]
    have hfrac1 : fracPart (1 : ℚ) * 1000 = 0 := by norm_num [fracPart]
    rw [format_srt_timestamp]
    simp only [e1, e2]
    rw [hfrac1, hpy1, hpy0]
    decide
  have hts5 : format_srt_timestamp 5 = "00:00:05,000" := by
    have e1 : divmodQ (5 : ℚ) 3600 = (0, 5) := by rw [divmodQ]; norm_num
    have e2 : divmodQ (5 : ℚ) 60 = (0, 5) := by rw [divmodQ]; norm_num
    have hpy0 : pyInt (0 : ℚ) = 0 := by norm_num [pyInt]
    have hpy5 : pyInt (5 : ℚ) = 5 := by norm_num [pyInt]
    have hfrac5 : fracPart (5 : ℚ) * 1000 = 0 := by norm_num [fracPart]
    rw [format_srt_timestamp]
    simp only [e1, e2]
    rw [hfrac5, hpy5, hpy0]
    decide
  have hts6 : format_srt_timestamp 6 = "00:00:06,000" := by
    have e1 : divmodQ (6 : ℚ) 3600 = (0, 6) := by rw [divmodQ]; norm_num
    have e2 : divmodQ (6 : ℚ) 60 = (0, 6) := by rw [divmodQ]; norm_num
    have hpy0 : pyInt (0 : ℚ) = 0 := by norm_num [pyInt]
    have hpy6 : pyInt (6 : ℚ) = 6 := by norm_num [pyInt]
    have hfrac6 : fracPart (6 : ℚ) * 1000 = 0 := by norm_num [fracPart]
    rw [format_srt_timestamp]
    simp only [e1, e2]
    rw [hfrac6, hpy6, hpy0]
    decide
  have hsortT : sortByStart [segT1, segT2] = [segT1, segT2] := by
    rw [sortByStart, List.insertionSort, List.insertionSort, List.insertionSort,
      List.orderedInsert, List.orderedInsert]
    simp [segT1, segT2]
  have hsortT' : sortByStart [segT2, segT1] = [segT2, segT1] := by
    rw [sortByStart, List.insertionSort, List.insertionSort, List.insertionSort,
      List.orderedInsert, List.orderedInsert]
    simp [segT2, segT1]
  constructor
  · rw [cg_format_as_srt, cg_format_as_srt]
    simp only [List.enum, List.enumFrom, List.flatMap_cons, List.flatMap_nil,
      List.append_nil, segA, segB]
    rw [hts0, hts1, hts5, hts6]
    decide
  · rw [format_as_srt, format_as_srt, hsortT, hsortT']
    simp only [List.enum, List.enumFrom, List.flatMap_cons, List.flatMap_nil,
      List.append_nil, segT1, segT2, style_srt]
    rw [hts0, hts1]
    decide

/-- C4: for every non-empty transcript, if the optimizer response is an
exception, not a non-empty array, or has any element missing one of the
four required fields, `_finalize_timing` returns the pre-optimization
transcript sorted by start, every segment unchanged. -/
theorem finalize_timing_fallback (transcript_segments : List Segment)
    (resp : OptResponse) (hne : transcript_segments ≠ [])
    (hbad : resp = OptResponse.err ∨ resp = OptResponse.notList ∨
      ∃ elems, resp = OptResponse.list elems ∧ (elems = [] ∨
        ∃ e ∈ elems,
          ¬ (e.text.isSome ∧ e.start.isSome ∧ e.stop.isSome ∧ e.type.isSome))) :
    finalize_timing transcript_segments resp = sortByStart transcript_segments := by
  rw [finalize_timing, if_neg hne]
  rcases hbad with rfl | rfl | ⟨elems, rfl, hinval⟩
  · rfl
  · rfl
  · simp only
    rw [if_neg]
    intro ⟨hne', hall⟩
    rcases hinval with rfl | ⟨e, hmem, hbadf⟩
    · exact hne' rfl
    · exact hbadf (hall e hmem)

/-- Witness for C4 at a one-segment transcript and a response whose only
element is missing `type`. -/
theorem finalize_timing_fallback_witness :
    finalize_timing demoTranscript demoOptResp = sortByStart demoTranscript :=
  finalize_timing_fallback demoTranscript demoOptResp
    (List.cons_ne_nil _ _)
    (Or.inr (Or.inr ⟨_, rfl,
      Or.inr ⟨_, List.Mem.head _, by decide⟩⟩))

theorem gap_from_svc_span (b : Bool) (s e : ℚ) (svc : GapSvc) :
    (gap_from_svc b s e svc).start = s ∧ (gap_from_svc b s e svc).stop = e := by
  match svc with
  | GapSvc.err => exact ⟨rfl, rfl⟩
  | GapSvc.resp none => exact ⟨rfl, rfl⟩
  | GapSvc.resp (some j) =>
    simp only [gap_from_svc]
    by_cases hj : j.type.isSome ∧ j.text.isSome
    · rw [if_pos hj]
      exact ⟨rfl, rfl⟩
    · rw [if_neg hj]
      exact ⟨rfl, rfl⟩

/-- C5 as amended: for a gap over the 1 s threshold whose loudness is below
−50 dBFS, no segment is emitted when the gap lasts at most 3 s; when it
lasts more than 3 s a segment spanning the gap is produced, and it is the
Silence segment `"[Silence]"` exactly when the classification service
fails or returns an unusable response (a usable response supplies its own
kind and text; see the counterexample). -/
theorem gap_force_include (dBFS start_time end_time : ℚ) (svc : GapSvc)
    (hsil : dBFS < -50) (hgap : 1 < end_time - start_time) :
    (end_time - start_time ≤ 3 →
      analyze_audio_gap dBFS start_time end_time svc = none) ∧
    (3 < end_time - start_time →
      (∃ s, analyze_audio_gap dBFS start_time end_time svc = some s ∧
        s.start = start_time ∧ s.stop = end_time) ∧
      ((svc = GapSvc.err ∨ svc = GapSvc.resp none ∨
        ∃ j, svc = GapSvc.resp (some j) ∧ ¬ (j.type.isSome ∧ j.text.isSome)) →
        analyze_audio_gap dBFS start_time end_time svc =
          some { text := "[Silence]", start := start_time, stop := end_time,
                 type := some "silence" })) := by
  have hs : decide (dBFS < silence_threshold) = true :=
    decide_eq_true (by rw [silence_threshold]; exact hsil)
  constructor
  · intro hle
    rw [analyze_audio_gap]
    simp only [hs]
    rw [if_neg]
    intro hcond
    rcases hcond with h | h
    · exact Bool.noConfusion h
    · exact absurd hle (not_le.mpr h)
  · intro hgt
    have hcond : (true : Bool) = false ∨ end_time - start_time > 3 := Or.inr hgt
    constructor
    · rw [analyze_audio_gap]
      simp only [hs]
      rw [if_pos hcond]
      exact ⟨_, rfl, gap_from_svc_span true start_time end_time svc⟩
    · intro hfail
      rw [analyze_audio_gap]
      simp only [hs]
      rw [if_pos hcond]
      rcases hfail with rfl | rfl | ⟨j, rfl, hj⟩
      · rfl
      · rfl
      · simp only [gap_from_svc, if_neg hj]
        rfl

/-- Witness for C5: a silent slice (−60 dBFS) with a failing service call —
a 2.5 s gap emits nothing, a 4 s gap emits the Silence segment. -/
theorem gap_force_include_witness :
    analyze_audio_gap (-60) 0 (5/2) GapSvc.err = none ∧
    analyze_audio_gap (-60) 0 4 GapSvc.err =
      some { text := "[Silence]", start := 0, stop := 4,
             type := some "silence" } :=
  ⟨(gap_force_include (-60) 0 (5/2) GapSvc.err (by norm_num)
      (by norm_num)).1 (by norm_num),
   (gap_force_include (-60) 0 4 GapSvc.err (by norm_num)
      (by norm_num)).2 (by norm_num) |>.2 (Or.inl rfl)⟩

/-- C5 counterexample to the claim as stated: a 4 s gap below the silence
threshold whose classification call succeeds with kind `music` produces a
music segment, not a Silence segment. -/
theorem gap_music_counterexample :
    analyze_audio_gap (-60) 0 4
        (GapSvc.resp (some { type := some "music", text := some "[m]" })) =
      some { text := "[m]", start := 0, stop := 4, type := some "music" } ∧
    (∀ s, analyze_audio_gap (-60) 0 4
        (GapSvc.resp (some { type := some "music", text := some "[m]" })) =
          some s → s.type ≠ some "silence") := by
  have hs : decide ((-60 : ℚ) < silence_threshold) = true :=
    decide_eq_true (by rw [silence_threshold]; norm_num)
  have hx : analyze_audio_gap (-60) 0 4
      (GapSvc.resp (some { type := some "music", text := some "[m]" })) =
      some { text := "[m]", start := 0, stop := 4, type := some "music" } := by
    rw [analyze_audio_gap]
    simp only [hs]
    rw [if_pos (Or.inr (by norm_num : (4 : ℚ) - 0 > 3))]
    rfl
  refine ⟨hx, ?_⟩
  intro s hsx
  rw [hx] at hsx
  cases hsx
  decide

theorem fill_walk_id (analyze : ℚ → ℚ → Option Segment) (end_time : ℚ) :
    ∀ (l : List Segment) (current_time : ℚ),
      (∀ f, l.head? = some f → f.start - current_time ≤ 1) →
      List.Chain' (fun a b => b.start - a.stop ≤ 1) l →
      (l = [] → end_time - current_time ≤ 1) →
      (∀ x, l.getLast? = some x → end_time - x.stop ≤ 1) →
      fill_walk analyze end_time current_time l = l
  | [], ct, _, _, hnil, _ => by
    simp only [fill_walk]
    rw [if_neg (not_lt.mpr (hnil rfl))]
  | seg :: rest, ct, hhead, hchain, _, hlast => by
    simp only [fill_walk]
    rw [if_neg (not_lt.mpr (hhead seg rfl)), List.nil_append]
    congr 1
    obtain ⟨hlink, htail⟩ := List.chain'_cons'.mp hchain
    apply fill_walk_id analyze end_time rest seg.stop
    · intro f hf
      exact hlink f hf
    · exact htail
    · intro hrest
      subst hrest
      exact hlast seg rfl
    · intro x hx
      apply hlast
      cases rest with
      | nil => simp at hx
      | cons r rs =>
        rw [List.getLast?_cons_cons]
        exact hx

/-- Corollary for the uniform case: when every adjacent gap — between the
window start and the first draft, between consecutive drafts, and between
the last draft and the window end — lasts at most 1 s,
`_detect_and_fill_gaps` returns exactly the sorted draft segments. -/
theorem small_gaps_insert_nothing (analyze : ℚ → ℚ → Option Segment)
    (segments : List Segment) (start_time end_time : ℚ)
    (hhead : ∀ f, (sortByStart segments).head? = some f →
      f.start - start_time ≤ 1)
    (hchain : List.Chain' (fun a b => b.start - a.stop ≤ 1)
      (sortByStart segments))
    (hlast : ∀ x, (sortByStart segments).getLast? = some x →
      end_time - x.stop ≤ 1) :
    detect_and_fill_gaps analyze segments start_time end_time =
      sortByStart segments := by
  rw [detect_and_fill_gaps]
  cases hsort : sortByStart segments with
  | nil => rfl
  | cons first rest =>
    rw [hsort] at hhead hchain hlast
    simp only
    rw [if_neg (not_lt.mpr (hhead first rfl)), List.nil_append]
    congr 1
    obtain ⟨hlink, htail⟩ := List.chain'_cons'.mp hchain
    apply fill_walk_id analyze end_time rest first.stop
    · intro f hf
      exact hlink f hf
    · exact htail
    · intro hrest
      subst hrest
      exact hlast first rfl
    · intro x hx
      apply hlast
      cases rest with
      | nil => simp at hx
      | cons r rs =>
        rw [List.getLast?_cons_cons]
        exact hx

theorem demoDrafts_sorted : sortByStart demoDrafts = demoDrafts := by
  rw [demoDrafts, sortByStart, List.insertionSort, List.insertionSort,
    List.insertionSort, List.orderedInsert, List.orderedInsert]
  rw [if_pos (by norm_num)]

/-- Instance of the uniform corollary: on `demoDrafts` (0.5 s internal
gap) in the window `[0, 4]`, nothing is inserted even by an
always-inserting analyzer. -/
theorem small_gaps_insert_nothing_witness :
    detect_and_fill_gaps demoAnalyze demoDrafts 0 4 = demoDrafts := by
  have h := small_gaps_insert_nothing demoAnalyze demoDrafts 0 4 ?_ ?_ ?_
  · exact h.trans demoDrafts_sorted
  · intro f hf
    rw [demoDrafts_sorted] at hf
    have : f = { text := "a", start := 0, stop := 2, type := some "speech" } := by
      rw [demoDrafts] at hf
      exact (Option.some_inj.mp hf).symm
    subst this
    norm_num
  · rw [demoDrafts_sorted, demoDrafts]
    refine List.Chain'.cons ?_ (List.chain'_singleton _)
    norm_num
  · intro x hx
    rw [demoDrafts_sorted] at hx
    have : x = { text := "b", start := 5/2, stop := 4, type := some "speech" } := by
      rw [demoDrafts] at hx
      exact (Option.some_inj.mp hx).symm
    subst this
    norm_num

theorem isInfix_append_left {α : Type} {m t : List α} (s : List α)
    (h : List.IsInfix m t) : List.IsInfix m (s ++ t) := by
  obtain ⟨u, v, huv⟩ := h
  exact ⟨s ++ u, v, by rw [List.append_assoc, List.append_assoc, ← List.append_assoc u,
    huv]⟩

theorem fill_walk_sublist (analyze : ℚ → ℚ → Option Segment) (end_time : ℚ) :
    ∀ (l : List Segment) (current_time : ℚ),
      l.Sublist (fill_walk analyze end_time current_time l)
  | [], _ => List.nil_sublist _
  | seg :: rest, ct => by
    simp only [fill_walk]
    exact ((fill_walk_sublist analyze end_time rest seg.stop).cons₂ seg).trans
      (List.sublist_append_right _ _)

theorem fill_walk_mem (analyze : ℚ → ℚ → Option Segment) (end_time : ℚ) :
    ∀ (l : List Segment) (current_time : ℚ) (s : Segment),
      s ∈ fill_walk analyze end_time current_time l →
      s ∈ l ∨ ∃ a b : ℚ, 1 < b - a ∧ analyze a b = some s
  | [], ct, s => by
    simp only [fill_walk]
    by_cases h : end_time - ct > 1
    · rw [if_pos h]
      intro hs
      refine Or.inr ⟨ct, end_time, h, ?_⟩
      cases hx : analyze ct end_time with
      | none => rw [hx] at hs; simp at hs
      | some v =>
        rw [hx] at hs
        simp at hs
        rw [hs]
    · rw [if_neg h]
      intro hs
      simp at hs
  | seg :: rest, ct, s => by
    simp only [fill_walk]
    intro hs
    rcases List.mem_append.mp hs with hin | hrest
    · by_cases h : seg.start - ct > 1
      · rw [if_pos h] at hin
        refine Or.inr ⟨ct, seg.start, h, ?_⟩
        cases hx : analyze ct seg.start with
        | none => rw [hx] at hin; simp at hin
        | some v =>
          rw [hx] at hin
          simp at hin
          rw [hin]
      · rw [if_neg h] at hin
        simp at hin
    · rcases List.mem_cons.mp hrest with rfl | htail
      · exact Or.inl (List.mem_cons_self _ _)
      · rcases fill_walk_mem analyze end_time rest seg.stop s htail with hmem | hgap
        · exact Or.inl (List.mem_cons_of_mem _ hmem)
        · exact Or.inr hgap

theorem fill_walk_keeps_pair (analyze : ℚ → ℚ → Option Segment) (end_time : ℚ)
    (a b : Segment) (hsmall : b.start - a.stop ≤ 1) :
    ∀ (l1 l2 : List Segment) (current_time : ℚ),
      List.IsInfix [a, b]
        (fill_walk analyze end_time current_time (l1 ++ a :: b :: l2))
  | [], l2, ct => by
    simp only [List.nil_append, fill_walk]
    rw [if_neg (not_lt.mpr hsmall), List.nil_append]
    exact isInfix_append_left _
      ⟨[], fill_walk analyze end_time b.stop l2, by simp⟩
  | x :: l1, l2, ct => by
    simp only [List.cons_append, fill_walk]
    exact isInfix_append_left _ (isInfix_append_left [x]
      (fill_walk_keeps_pair analyze end_time a b hsmall l1 l2 x.stop))

theorem fill_walk_ne_nil (analyze : ℚ → ℚ → Option Segment) (end_time : ℚ)
    (seg : Segment) (rest : List Segment) (ct : ℚ) :
    fill_walk analyze end_time ct (seg :: rest) ≠ [] := by
  simp only [fill_walk]
  intro h
  exact absurd (List.append_eq_nil.mp h).2 (List.cons_ne_nil _ _)

theorem fill_walk_getLast (analyze : ℚ → ℚ → Option Segment) (end_time : ℚ) :
    ∀ (l : List Segment) (ct : ℚ), l ≠ [] →
      (∀ x, l.getLast? = some x → end_time - x.stop ≤ 1) →
      (fill_walk analyze end_time ct l).getLast? = l.getLast?
  | [], _, h, _ => absurd rfl h
  | [seg], ct, _, hlast => by
    simp only [fill_walk]
    rw [if_neg (not_lt.mpr (hlast seg rfl)), List.getLast?_append]
    simp
  | seg :: r :: rest, ct, _, hlast => by
    have hstep : fill_walk analyze end_time ct (seg :: r :: rest) =
        (if seg.start - ct > 1 then (analyze ct seg.start).toList else []) ++
          seg :: fill_walk analyze end_time seg.stop (r :: rest) := by
      simp only [fill_walk]
    rw [hstep, List.getLast?_append]
    have hfw : (fill_walk analyze end_time seg.stop (r :: rest)).getLast? =
        (r :: rest).getLast? :=
      fill_walk_getLast analyze end_time (r :: rest) seg.stop
        (List.cons_ne_nil _ _)
        (fun x hx => hlast x (by rw [List.getLast?_cons_cons]; exact hx))
    have hne := fill_walk_ne_nil analyze end_time r rest seg.stop
    have h1 : (seg :: fill_walk analyze end_time seg.stop (r :: rest)).getLast? =
        (fill_walk analyze end_time seg.stop (r :: rest)).getLast? := by
      rw [show seg :: fill_walk analyze end_time seg.stop (r :: rest) =
        [seg] ++ fill_walk analyze end_time seg.stop (r :: rest) from rfl,
        List.getLast?_append]
      cases hx : (fill_walk analyze end_time seg.stop (r :: rest)).getLast? with
      | none => exact absurd (List.getLast?_eq_none_iff.mp hx) hne
      | some v => rfl
    rw [h1, hfw, List.getLast?_cons_cons]
    cases hx : (r :: rest).getLast? with
    | none => exact absurd (List.getLast?_eq_none_iff.mp hx) (List.cons_ne_nil _ _)
    | some v => rfl

theorem detect_eq_fill_walk (analyze : ℚ → ℚ → Option Segment)
    (segments : List Segment) (start_time end_time : ℚ)
    (first : Segment) (rest : List Segment)
    (hsort : sortByStart segments = first :: rest) :
    detect_and_fill_gaps analyze segments start_time end_time =
      fill_walk analyze end_time start_time (first :: rest) := by
  rw [detect_and_fill_gaps, hsort]
  simp only [fill_walk]

/-- C6: a gap of at most 1.0 s never produces a synthesized gap Segment,
whatever else the window contains.  For every analyzer oracle, draft list
and window: (i) the sorted drafts appear in the output unchanged and in
order; (ii) every other output element was synthesized by the analyzer for
a gap strictly longer than 1 s — so no gap of at most 1 s ever yields one;
(iii) any two drafts adjacent in the sorted list whose gap is at most 1 s
remain adjacent in the output, nothing inserted between them (in
particular a 0.5 s gap yields no gap Segment); (iv) a window-start gap of
at most 1 s inserts nothing before the first draft; (v) a window-end gap
of at most 1 s inserts nothing after the last draft. -/
theorem small_gap_never_fills (analyze : ℚ → ℚ → Option Segment)
    (segments : List Segment) (start_time end_time : ℚ) :
    (sortByStart segments).Sublist
      (detect_and_fill_gaps analyze segments start_time end_time) ∧
    (∀ s ∈ detect_and_fill_gaps analyze segments start_time end_time,
      s ∈ sortByStart segments ∨ ∃ a b : ℚ, 1 < b - a ∧ analyze a b = some s) ∧
    (∀ (l1 l2 : List Segment) (a b : Segment),
      sortByStart segments = l1 ++ a :: b :: l2 → b.start - a.stop ≤ 1 →
      List.IsInfix [a, b]
        (detect_and_fill_gaps analyze segments start_time end_time)) ∧
    (∀ f, (sortByStart segments).head? = some f → f.start - start_time ≤ 1 →
      (detect_and_fill_gaps analyze segments start_time end_time).head? =
        some f) ∧
    (∀ x, (sortByStart segments).getLast? = some x → end_time - x.stop ≤ 1 →
      (detect_and_fill_gaps analyze segments start_time end_time).getLast? =
        some x) := by
  cases hsort : sortByStart segments with
  | nil =>
    have hout : detect_and_fill_gaps analyze segments start_time end_time = [] := by
      rw [detect_and_fill_gaps, hsort]
    rw [hout]
    refine ⟨List.nil_sublist _, by simp, ?_, by simp, by simp⟩
    intro l1 l2 a b hdecomp _
    rw [eq_comm, List.append_eq_nil] at hdecomp
    exact absurd hdecomp.2 (List.cons_ne_nil _ _)
  | cons first rest =>
    have hout := detect_eq_fill_walk analyze segments start_time end_time
      first rest hsort
    rw [hout]
    refine ⟨?_, ?_, ?_, ?_, ?_⟩
    · exact fill_walk_sublist analyze end_time (first :: rest) start_time
    · exact fun s hs => fill_walk_mem analyze end_time (first :: rest)
        start_time s hs
    · intro l1 l2 a b hdecomp hsmall
      rw [hdecomp]
      exact fill_walk_keeps_pair analyze end_time a b hsmall l1 l2 start_time
    · intro f hf hsmall
      simp only [List.head?_cons, Option.some_inj] at hf
      subst hf
      simp only [fill_walk]
      rw [if_neg (not_lt.mpr hsmall), List.nil_append]
      rfl
    · intro x hx hsmall
      rw [fill_walk_getLast analyze end_time (first :: rest) start_time
        (List.cons_ne_nil _ _) ?_, hx]
      intro y hy
      rw [hx] at hy
      rw [← Option.some_inj.mp hy]
      exact hsmall

/-- Witness for C6 in a mixed window: `demoDrafts` has a 0.5 s internal
gap, and the window `[0, 10]` also has a 6 s tail gap, so the
always-inserting `demoAnalyze` does synthesize a tail segment — yet the
small-gap pair stays adjacent with nothing between it, and nothing is
inserted before the first draft. -/
theorem small_gap_never_fills_witness :
    List.IsInfix
      [{ text := "a", start := 0, stop := 2, type := some "speech" },
       { text := "b", start := 5/2, stop := 4, type := some "speech" }]
      (detect_and_fill_gaps demoAnalyze demoDrafts 0 10) ∧
    (detect_and_fill_gaps demoAnalyze demoDrafts 0 10).head? =
      some { text := "a", start := 0, stop := 2, type := some "speech" } := by
  have h := small_gap_never_fills demoAnalyze demoDrafts 0 10
  constructor
  · exact h.2.2.1 [] []
      { text := "a", start := 0, stop := 2, type := some "speech" }
      { text := "b", start := 5/2, stop := 4, type := some "speech" }
      (by rw [demoDrafts_sorted]; rfl) (by norm_num)
  · exact h.2.2.2.1 _ (by rw [demoDrafts_sorted]; rfl) (by norm_num)

end AVC
